import Mathlib

/-!
Verification of the `blitz` WebSocket library (Rust) against its
natural-language specification.  The Rust sources are shallowly embedded:
machine integers become `Nat` (with explicit `% 2 ^ w` or byte bounds where
overflow matters), byte buffers become `List Nat`, fallible code returns an
explicit outcome type, and a `panicked` outcome models a Rust `assert!`
failure or `unreachable!`.
-/

set_option maxRecDepth 10000

namespace Blitz

/-! ### `src/protocol/frame/codec.rs` -/

/-- Data opcodes as in RFC 6455 (`enum Data`). -/
inductive Data where
  | Continuation
  | Text
  | Binary
  | Reserved (v : Nat)
deriving DecidableEq, Repr

/-- Control opcodes as in RFC 6455 (`enum Control`). -/
inductive Control where
  | Close
  | Ping
  | Pong
  | Reserved (v : Nat)
deriving DecidableEq, Repr

/-- WebSocket message opcode (`enum OpCode`). -/
inductive OpCode where
  | Data (d : Data)
  | Control (c : Control)
deriving DecidableEq, Repr

/-- `impl From<OpCode> for u8`. -/
def u8OfOpCode : OpCode → Nat
  | .Data .Continuation => 0x0
  | .Data .Text => 0x1
  | .Data .Binary => 0x2
  | .Data (.Reserved i) => i
  | .Control .Close => 0x8
  | .Control .Ping => 0x9
  | .Control .Pong => 0xA
  | .Control (.Reserved i) => i

/-- `impl From<u8> for OpCode`.  The source panics for values above 0xF
("Bug: OpCode out of range"); every caller first masks with `0x0F`, so that
branch is unreachable and is mapped to an arbitrary reserved opcode here. -/
def opCodeOfU8 (value : Nat) : OpCode :=
  if value = 0x0 then .Data .Continuation
  else if value = 0x1 then .Data .Text
  else if value = 0x2 then .Data .Binary
  else if 0x3 ≤ value ∧ value ≤ 0x7 then .Data (.Reserved value)
  else if value = 0x8 then .Control .Close
  else if value = 0x9 then .Control .Ping
  else if value = 0xA then .Control .Pong
  else if 0xB ≤ value ∧ value ≤ 0xF then .Control (.Reserved value)
  else .Control (.Reserved value)

/-- A reserved opcode (rejected by the header parser). -/
def OpCode.isReserved : OpCode → Bool
  | .Control (.Reserved _) => true
  | .Data (.Reserved _) => true
  | _ => false

/-- Close status codes (`enum CloseCode`). -/
inductive CloseCode where
  | Normal
  | Away
  | Protocol
  | Unsupported
  | Status
  | Abnormal
  | Invalid
  | Policy
  | Size
  | Extension
  | Error
  | Restart
  | Again
  | Tls
  | Reserved (v : Nat)
  | Iana (v : Nat)
  | Library (v : Nat)
  | Bad (v : Nat)
deriving DecidableEq, Repr

/-- `CloseCode::allowed`. -/
def CloseCode.allowed : CloseCode → Bool
  | .Bad _ | .Reserved _ | .Status | .Abnormal | .Tls => false
  | _ => true

/-- `impl From<CloseCode> for u16`. -/
def u16OfCloseCode : CloseCode → Nat
  | .Normal => 0x3e8
  | .Away => 0x3e9
  | .Protocol => 0x3EA
  | .Unsupported => 0x3EB
  | .Status => 0x3ED
  | .Abnormal => 0x3EE
  | .Invalid => 0x3EF
  | .Policy => 0x3F0
  | .Size => 0x3F1
  | .Extension => 0x3F2
  | .Error => 0x3F3
  | .Restart => 0x3F4
  | .Again => 0x3F5
  | .Tls => 0x3F7
  | .Bad other => other
  | .Reserved other => other
  | .Iana other => other
  | .Library other => other

/-- `impl From<u16> for CloseCode`; the match arms are translated in source
order (they do not overlap). -/
def closeCodeOfU16 (value : Nat) : CloseCode :=
  if value = 0x3e8 then .Normal
  else if value = 0x3e9 then .Away
  else if value = 0x3EA then .Protocol
  else if value = 0x3EB then .Unsupported
  else if value = 0x3ED then .Status
  else if value = 0x3EE then .Abnormal
  else if value = 0x3EF then .Invalid
  else if value = 0x3F0 then .Policy
  else if value = 0x3F1 then .Size
  else if value = 0x3F2 then .Extension
  else if value = 0x3F3 then .Error
  else if value = 0x3F4 then .Restart
  else if value = 0x3F5 then .Again
  else if value = 0x3F7 then .Tls
  else if 0x1 ≤ value ∧ value ≤ 0x3E7 then .Bad value
  else if 0x3F8 ≤ value ∧ value ≤ 0xBB7 then .Reserved value
  else if 0xBB8 ≤ value ∧ value ≤ 0xF9F then .Iana value
  else if 0xFA0 ≤ value ∧ value ≤ 0x1387 then .Library value
  else .Bad value

/-! ### Byte helpers

Big-endian byte serialisation as done by `u16::to_be_bytes` /
`u64::to_be_bytes` and `u16::from_be_bytes` / `u64::from_be_bytes`. -/

/-- `u16::to_be_bytes` (the value is a `u16`, i.e. below `2 ^ 16`). -/
def u16BeBytes (v : Nat) : List Nat := [v / 256 % 256, v % 256]

/-- `u64::to_be_bytes` (the value is a `u64`, i.e. below `2 ^ 64`). -/
def u64BeBytes (v : Nat) : List Nat :=
  [v / 256 ^ 7 % 256, v / 256 ^ 6 % 256, v / 256 ^ 5 % 256, v / 256 ^ 4 % 256,
   v / 256 ^ 3 % 256, v / 256 ^ 2 % 256, v / 256 % 256, v % 256]

/-- Big-endian reconstruction of a number from its byte list
(`uNN::from_be_bytes`; leading zero bytes are implicit). -/
def beToNat (bytes : List Nat) : Nat := bytes.foldl (fun acc b => acc * 256 + b) 0

/-! ### `src/protocol/frame/frame.rs` -/

/-- A 4-byte mask key (`[u8; 4]`). -/
structure MaskKey where
  b0 : Nat
  b1 : Nat
  b2 : Nat
  b3 : Nat
deriving DecidableEq, Repr

/-- Indexing `mask[j]` for `j < 4` (callers always index with `i & 3`). -/
def MaskKey.get (m : MaskKey) : Nat → Nat
  | 0 => m.b0
  | 1 => m.b1
  | 2 => m.b2
  | _ => m.b3

/-- The bytes of the key in order (`[u8; 4]` as a slice). -/
def MaskKey.bytes (m : MaskKey) : List Nat := [m.b0, m.b1, m.b2, m.b3]

/-- All four key bytes are bytes. -/
def MaskKey.Wf (m : MaskKey) : Prop :=
  m.b0 < 256 ∧ m.b1 < 256 ∧ m.b2 < 256 ∧ m.b3 < 256

instance (m : MaskKey) : Decidable m.Wf := by unfold MaskKey.Wf; infer_instance

/-- `struct FrameHeader`. -/
structure FrameHeader where
  fin : Bool
  rsv1 : Bool
  rsv2 : Bool
  rsv3 : Bool
  opcode : OpCode
  mask : Option MaskKey
deriving DecidableEq, Repr

/-- `impl Default for FrameHeader` (note: the source defaults `fin` to
`false` and the opcode to `Close`). -/
def FrameHeader.default : FrameHeader :=
  { fin := false, rsv1 := false, rsv2 := false, rsv3 := false,
    opcode := .Control .Close, mask := none }

/-- `enum Length`: the three payload-length encodings of the frame header. -/
inductive Length where
  | U8 (b : Nat)
  | U16
  | U64
deriving DecidableEq, Repr

/-- `Length::for_len`. -/
def Length.for_len (len : Nat) : Length :=
  if len < 126 then .U8 len
  else if len < 65536 then .U16
  else .U64

/-- `Length::additional`. -/
def Length.additional : Length → Nat
  | .U8 _ => 0
  | .U16 => 2
  | .U64 => 8

/-- `Length::len_byte`. -/
def Length.len_byte : Length → Nat
  | .U8 b => b
  | .U16 => 126
  | .U64 => 127

/-- `Length::for_byte`. -/
def Length.for_byte (byte : Nat) : Length :=
  match byte &&& 0x7F with
  | 126 => .U16
  | 127 => .U64
  | b => .U8 b

/-- `FrameHeader::len`: size of the header once formatted for a payload of
the given length. -/
def FrameHeader.len (h : FrameHeader) (length : Nat) : Nat :=
  2 + (Length.for_len length).additional + (if h.mask.isSome then 4 else 0)

/-- `FrameHeader::format`: the bytes written for a header with the given
payload length (writing into a growable buffer never fails, so the `Result`
is dropped).  `length as u16` is the Rust truncating cast. -/
def FrameHeader.format (h : FrameHeader) (length : Nat) : List Nat :=
  let code := u8OfOpCode h.opcode
  let first_byte :=
    code ||| (if h.fin then 0x80 else 0) ||| (if h.rsv1 then 0x40 else 0)
      ||| (if h.rsv2 then 0x20 else 0) ||| (if h.rsv3 then 0x10 else 0)
  let len := Length.for_len length
  let second_byte := len.len_byte ||| (if h.mask.isSome then 0x80 else 0)
  [first_byte, second_byte]
    ++ (match len with
        | .U8 _ => []
        | .U16 => u16BeBytes (length % 65536)
        | .U64 => u64BeBytes (length % 2 ^ 64))
    ++ (match h.mask with
        | some m => m.bytes
        | none => [])

/-! ### Cursor and frame-header parsing

`std::io::Cursor` over a byte slice: `read` copies at most the requested
number of bytes and advances the position by the number copied;
`read_exact` either copies exactly the requested number and advances, or
fails with `UnexpectedEof`. -/

/-- `std::io::Cursor<impl AsRef<[u8]>>`. -/
structure Cursor where
  data : List Nat
  pos : Nat
deriving DecidableEq, Repr

/-- The bytes after the current position. -/
def Cursor.remaining (c : Cursor) : List Nat := c.data.drop c.pos

/-- `Read::read` into an `n`-byte buffer: the bytes copied and the advanced
cursor. -/
def Cursor.readN (c : Cursor) (n : Nat) : List Nat × Cursor :=
  let copied := c.remaining.take n
  (copied, { c with pos := c.pos + copied.length })

/-- Errors of `error.rs` reachable from the embedded operations. -/
inductive ProtocolError where
  | UnknownControlOpCode (b : Nat)
  | UnknownDataOpCode (b : Nat)
  | InvalidCloseFrame
deriving DecidableEq, Repr

/-- `enum Error` (the variants the embedded code can produce). -/
inductive Error where
  | Protocol (p : ProtocolError)
  | AttackAttempt
deriving DecidableEq, Repr

/-- Outcome of a header-parsing call: `Ok` / `Err` with the cursor as left by
the call, or a Rust panic (a failed `assert!`). -/
inductive ParseStep where
  | ok (r : Option (FrameHeader × Nat)) (c : Cursor)
  | err (e : Error) (c : Cursor)
  | panicked
deriving DecidableEq, Repr

/-- The tail of `parse_internal` after the payload length is known: read
the mask key if the masked bit is set (`read` of 4 bytes, short read returns
`Ok(None)`), then reject reserved opcodes. -/
def FrameHeader.parse_finish (fin rsv1 rsv2 rsv3 : Bool) (opcode : OpCode) (masked : Bool)
    (a len : Nat) (c : Cursor) : ParseStep :=
  let (maskBytes, c2) := c.readN 4
  if masked && (maskBytes.length != 4) then .ok none c2
  else
    let mask : Option MaskKey :=
      if masked then
        some ⟨maskBytes.getD 0 0, maskBytes.getD 1 0, maskBytes.getD 2 0,
          maskBytes.getD 3 0⟩
      else none
    let cAfter := if masked then c2 else c
    match opcode with
    | .Control (.Reserved _) =>
        .err (.Protocol (.UnknownControlOpCode (a &&& 0x0F))) cAfter
    | .Data (.Reserved _) =>
        .err (.Protocol (.UnknownDataOpCode (a &&& 0x0F))) cAfter
    | _ => .ok (some ({ fin, rsv1, rsv2, rsv3, opcode, mask }, len)) cAfter

/-- `FrameHeader::parse_internal`.  Faithful to the source's control flow:
two header bytes via `read` (short read returns `Ok(None)`), the
`assert!(particular_len < SIZE)` with `SIZE = size_of::<u64>() = 8`
(modelled as `panicked` when it fails), `read_exact` for the length
extension (`UnexpectedEof` returns `Ok(None)`), `read` for the mask key, and
rejection of reserved opcodes. -/
def FrameHeader.parse_internal (c : Cursor) : ParseStep :=
  let (head, c1) := c.readN 2
  if head.length ≠ 2 then .ok none c1
  else
    let a := head.getD 0 0
    let b := head.getD 1 0
    let fin := a &&& 0x80 != 0
    let rsv1 := a &&& 0x40 != 0
    let rsv2 := a &&& 0x20 != 0
    let rsv3 := a &&& 0x10 != 0
    let opcode := opCodeOfU8 (a &&& 0x0F)
    let masked := b &&& 0x80 != 0
    let len_byte := b &&& 0x7F
    let particular_len := (Length.for_byte len_byte).additional
    if particular_len > 0 then
      if particular_len < 8 then
        if c1.remaining.length < particular_len then .ok none c1
        else
          let (lenBytes, c2) := c1.readN particular_len
          let len := beToNat lenBytes
          FrameHeader.parse_finish fin rsv1 rsv2 rsv3 opcode masked a len c2
      else .panicked
    else
      FrameHeader.parse_finish fin rsv1 rsv2 rsv3 opcode masked a (len_byte) c1

/-- `FrameHeader::parse`: run `parse_internal`, and on `Ok(None)` restore the
cursor position to its entry value. -/
def FrameHeader.parse (c : Cursor) : ParseStep :=
  let init := c.pos
  match FrameHeader.parse_internal c with
  | .ok none cq => .ok none { cq with pos := init }
  | other => other

/-! ### Frames, close frames and UTF-8 payloads -/

/-- `Utf8Bytes` (`src/protocol/frame/utf.rs`) wraps the raw UTF-8 bytes of a
string; it is modelled as the byte list itself. -/
abbrev Utf8Bytes : Type := List Nat

/-- `Utf8Bytes::from_static` on an ASCII literal (every string the embedded
code constructs is ASCII, where UTF-8 is the identity on code points). -/
def Utf8Bytes.from_static (s : String) : Utf8Bytes := s.data.map Char.toNat

/-- `struct CloseFrame`. -/
structure CloseFrame where
  code : CloseCode
  reason : Utf8Bytes
deriving DecidableEq

/-- `struct Frame`. -/
structure Frame where
  header : FrameHeader
  payload : List Nat
deriving DecidableEq

/-- `Frame::new_close`: a close frame's payload is the big-endian close code
followed by the reason bytes (empty for `None`); the header is the default
header (whose opcode is `Close`). -/
def Frame.new_close (msg : Option CloseFrame) : Frame :=
  match msg with
  | some ⟨code, reason⟩ =>
      { header := FrameHeader.default, payload := u16BeBytes (u16OfCloseCode code) ++ reason }
  | none => { header := FrameHeader.default, payload := [] }

/-- `Frame::new_pong`. -/
def Frame.new_pong (data : List Nat) : Frame :=
  { header := { FrameHeader.default with opcode := .Control .Pong }, payload := data }

/-! ### `src/protocol/websocket.rs`: session close handling -/

/-- `enum WebSocketState`. -/
inductive WebSocketState where
  | Active
  | ClosedByServer
  | ClosedByPeer
  | CloseAcknowledged
  | Terminated
deriving DecidableEq, Repr

/-- `WebSocketContext::set_additional`: replace the auxiliary frame slot only
if it is empty or currently holds a `Pong` frame; return the new slot
contents. -/
def set_additional (slot : Option Frame) (additional : Frame) : Option Frame :=
  let empty_or_pong : Bool :=
    match slot with
    | none => true
    | some f => f.header.opcode == .Control .Pong
  if empty_or_pong then some additional else slot

/-- Result of `WebSocketContext::try_close`: the value returned to the
caller together with the state and auxiliary slot after the call. -/
structure TryCloseResult where
  surfaced : Option (Option CloseFrame)
  state : WebSocketState
  slot : Option Frame
deriving DecidableEq

/-- `WebSocketContext::try_close`, as a function of the parts of the context
it touches (`state` and `additional_send`).  The `Terminated` arm is
`unreachable!` in the source and is modelled as `none`. -/
def try_close (state : WebSocketState) (slot : Option Frame)
    (close : Option CloseFrame) : Option TryCloseResult :=
  match state with
  | .Active =>
      let close := close.map fun frame =>
        if !frame.code.allowed then
          { code := CloseCode.Protocol, reason := Utf8Bytes.from_static "Protocol violatoin" }
        else frame
      let reply := Frame.new_close close
      some { surfaced := some close, state := .ClosedByPeer, slot := set_additional slot reply }
  | .ClosedByPeer | .CloseAcknowledged =>
      some { surfaced := none, state, slot }
  | .ClosedByServer =>
      some { surfaced := some close, state := .CloseAcknowledged, slot }
  | .Terminated => none

/-! ### `src/protocol/config.rs` and `src/protocol/compression.rs` -/

/-- `struct WebSocketCompressionConfig`. -/
structure WebSocketCompressionConfig where
  enabled : Bool
  client_no_context_takeover : Bool
  server_no_context_takeover : Bool
  client_max_window_bits : Option Nat
  server_max_window_bits : Option Nat
deriving DecidableEq

/-- `impl Default for WebSocketCompressionConfig`. -/
def WebSocketCompressionConfig.default : WebSocketCompressionConfig :=
  { enabled := true, client_no_context_takeover := false,
    server_no_context_takeover := false, client_max_window_bits := none,
    server_max_window_bits := none }

/-- `struct WebSocketConfig`; `usize` is modelled as `Nat`, with
`usize::MAX` as `2 ^ 64 - 1` (64-bit target). -/
structure WebSocketConfig where
  read_buffer_size : Nat
  write_buffer_size : Nat
  max_write_buffer_size : Nat
  max_message_size : Option Nat
  max_frame_size : Option Nat
  accept_unmasked_frames : Bool
  compression : WebSocketCompressionConfig
deriving DecidableEq

/-- `impl Default for WebSocketConfig`. -/
def WebSocketConfig.default : WebSocketConfig :=
  { read_buffer_size := 128 * 1024,
    write_buffer_size := 128 * 1024,
    max_write_buffer_size := 2 ^ 64 - 1,
    max_message_size := some (64 <<< 20),
    max_frame_size := some (64 <<< 20),
    accept_unmasked_frames := false,
    compression := WebSocketCompressionConfig.default }

/-! ### `src/handshake/machine.rs`: the attack check -/

/-- `struct AttackCheck`. -/
structure AttackCheck where
  packets : Nat
  bytes : Nat
deriving DecidableEq, Repr

/-- `AttackCheck::new`. -/
def AttackCheck.new : AttackCheck := { packets := 0, bytes := 0 }

/-- `AttackCheck::check_incoming_packet`: account the read, then fail with
`AttackAttempt` when a threshold is crossed. -/
def AttackCheck.check_incoming_packet (a : AttackCheck) (size : Nat) :
    Except Error AttackCheck :=
  let packets := a.packets + 1
  let bytes := a.bytes + size
  if bytes > 65536 ∨ packets > 512 ∨ (packets > 64 ∧ packets * 128 > bytes) then
    .error .AttackAttempt
  else
    .ok { packets, bytes }

/-- Feed a sequence of successful read sizes through the attack check. -/
def AttackCheck.run (sizes : List Nat) : Except Error AttackCheck :=
  sizes.foldlM AttackCheck.check_incoming_packet AttackCheck.new

/-! ### `src/protocol/frame/mask.rs`

The target is little-endian (the `cfg!(target_endian = "big")` branch is
dead there), so `u32::from_ne_bytes` / `to_ne_bytes` are the little-endian
conversions and the code rotates the mask word right by `8 * head` bits.
`u32` values are `Nat`s below `2 ^ 32`. -/

/-- `u32::from_ne_bytes` on a little-endian target. -/
def u32OfLeBytes (m : MaskKey) : Nat :=
  m.b0 + 256 * m.b1 + 65536 * m.b2 + 16777216 * m.b3

/-- `u32::to_ne_bytes` on a little-endian target. -/
def leBytesOfU32 (x : Nat) : MaskKey :=
  ⟨x % 256, x / 256 % 256, x / 65536 % 256, x / 16777216 % 256⟩

/-- `u32::rotate_right` (the shift count acts modulo 32). -/
def rotateRight32 (x n : Nat) : Nat :=
  ((x >>> (n % 32)) ||| (x <<< ((32 - n % 32) % 32))) % 2 ^ 32

/-- The byte-by-byte masking loop of `apply_mask_default`, generalised over
the starting index: byte `i` of the buffer is XORed with key byte
`i & 3`. -/
def applyMaskFrom (mask : MaskKey) : Nat → List Nat → List Nat
  | _, [] => []
  | i, b :: rest => (b ^^^ mask.get (i &&& 3)) :: applyMaskFrom mask (i + 1) rest

/-- `apply_mask_default`. -/
def apply_mask_default (buf : List Nat) (mask : MaskKey) : List Nat :=
  applyMaskFrom mask 0 buf

/-- The 32-bit-word loop of `apply_mask`: XOR each aligned 4-byte chunk, as
a `u32`, with the (rotated) mask word.  The input list has length `4 * w`;
a leftover shorter than a word (impossible for an `align_to` middle) is
returned unchanged. -/
def xorWords (maskWord : Nat) : List Nat → List Nat
  | b0 :: b1 :: b2 :: b3 :: rest =>
      (leBytesOfU32 (u32OfLeBytes ⟨b0, b1, b2, b3⟩ ^^^ maskWord)).bytes
        ++ xorWords maskWord rest
  | l => l

/-- `apply_mask`.  `align_to_mut::<u32>` splits the buffer into an
unaligned prefix, a word-aligned middle and a tail; the split depends on the
buffer's run-time address, so the prefix length `p` and word count `w` are
parameters (any split with `p + 4 * w ≤ buf.length` can occur).  The prefix
is masked byte-by-byte with the original key, the middle word-by-word with
the key word rotated right by `8 * (prefix.len() & 3)` bits, and the tail
byte-by-byte with the bytes of the rotated word. -/
def apply_mask (p w : Nat) (buf : List Nat) (mask : MaskKey) : List Nat :=
  let mask_u32 := u32OfLeBytes mask
  let pfx := buf.take p
  let rest := buf.drop p
  let middle := rest.take (4 * w)
  let suffix := rest.drop (4 * w)
  let head := pfx.length &&& 3
  let mask_rot := if head > 0 then rotateRight32 mask_u32 (8 * head) else mask_u32
  apply_mask_default pfx mask
    ++ xorWords mask_rot middle
    ++ apply_mask_default suffix (leBytesOfU32 mask_rot)

/-! ### `src/handshake/core.rs`: accept-key derivation

`derive_accept_key` feeds the request key and the WebSocket GUID through the
external `sha1` crate and encodes the 20-byte digest with the external
`base64` crate's `STANDARD` engine.  Both dependencies implement fixed
published algorithms, modelled here: SHA-1 exactly as RFC 3174, base64
exactly as RFC 4648 §4 (standard alphabet, `=` padding). -/

/-- 32-bit left rotation (`circular left shift` of RFC 3174). -/
def rotl32 (x n : Nat) : Nat := ((x <<< n) ||| (x >>> (32 - n))) % 2 ^ 32

/-- `u32::to_be_bytes`. -/
def u32BeBytes (v : Nat) : List Nat :=
  [v / 16777216 % 256, v / 65536 % 256, v / 256 % 256, v % 256]

/-- SHA-1 message padding: append `0x80`, zero-pad to 56 mod 64, then the
message length in bits as a 64-bit big-endian integer. -/
def sha1Pad (msg : List Nat) : List Nat :=
  let l := msg.length
  let k := (119 - l % 64) % 64
  msg ++ [0x80] ++ List.replicate k 0 ++ u64BeBytes (8 * l)

/-- Split a byte list into 64-byte blocks (`fuel` bounds the recursion; it
is called with the list length, which suffices). -/
def toBlocks : Nat → List Nat → List (List Nat)
  | 0, _ => []
  | _, [] => []
  | fuel + 1, l => l.take 64 :: toBlocks fuel (l.drop 64)

/-- The 80-entry SHA-1 message schedule of one 64-byte block. -/
def sha1Schedule (block : List Nat) : List Nat :=
  let w16 := (List.range 16).map (fun i => beToNat ((block.drop (4 * i)).take 4))
  (List.range 64).foldl
    (fun w _ =>
      let n := w.length
      w ++ [rotl32 (w.getD (n - 3) 0 ^^^ w.getD (n - 8) 0 ^^^ w.getD (n - 14) 0
        ^^^ w.getD (n - 16) 0) 1])
    w16

/-- SHA-1 state: the five 32-bit chaining values. -/
structure Sha1State where
  h0 : Nat
  h1 : Nat
  h2 : Nat
  h3 : Nat
  h4 : Nat
deriving DecidableEq

/-- One SHA-1 compression round. -/
def sha1Round (w : List Nat) (s : Sha1State) (i : Nat) : Sha1State :=
  let (f, k) :=
    if i < 20 then ((s.h1 &&& s.h2) ||| ((s.h1 ^^^ 0xFFFFFFFF) &&& s.h3), 0x5A827999)
    else if i < 40 then (s.h1 ^^^ s.h2 ^^^ s.h3, 0x6ED9EBA1)
    else if i < 60 then
      ((s.h1 &&& s.h2) ||| (s.h1 &&& s.h3) ||| (s.h2 &&& s.h3), 0x8F1BBCDC)
    else (s.h1 ^^^ s.h2 ^^^ s.h3, 0xCA62C1D6)
  let temp := (rotl32 s.h0 5 + f + s.h4 + k + w.getD i 0) % 2 ^ 32
  ⟨temp, s.h0, rotl32 s.h1 30, s.h2, s.h3⟩

/-- SHA-1 compression of one block into the chaining state. -/
def sha1Compress (s : Sha1State) (block : List Nat) : Sha1State :=
  let w := sha1Schedule block
  let r := (List.range 80).foldl (sha1Round w) s
  ⟨(s.h0 + r.h0) % 2 ^ 32, (s.h1 + r.h1) % 2 ^ 32, (s.h2 + r.h2) % 2 ^ 32,
   (s.h3 + r.h3) % 2 ^ 32, (s.h4 + r.h4) % 2 ^ 32⟩

/-- SHA-1 of a byte list: the 20-byte digest. -/
def sha1 (msg : List Nat) : List Nat :=
  let padded := sha1Pad msg
  let final := (toBlocks padded.length padded).foldl sha1Compress
    ⟨0x67452301, 0xEFCDAB89, 0x98BADCFE, 0x10325476, 0xC3D2E1F0⟩
  u32BeBytes final.h0 ++ u32BeBytes final.h1 ++ u32BeBytes final.h2
    ++ u32BeBytes final.h3 ++ u32BeBytes final.h4

/-- The RFC 4648 standard base64 alphabet. -/
def base64Alphabet : List Char :=
  "ABCDEFGHIJKLMNOPQRSTUVWXYZabcdefghijklmnopqrstuvwxyz0123456789+/".data

/-- Base64-encode a byte list, three bytes per group, with `=` padding
(`fuel` bounds the recursion; it is called with the list length). -/
def base64Chunks : Nat → List Nat → List Char
  | 0, _ => []
  | _, [] => []
  | fuel + 1, b0 :: b1 :: b2 :: rest =>
      let n := b0 * 65536 + b1 * 256 + b2
      [base64Alphabet.getD (n >>> 18 &&& 63) 'A', base64Alphabet.getD (n >>> 12 &&& 63) 'A',
       base64Alphabet.getD (n >>> 6 &&& 63) 'A', base64Alphabet.getD (n &&& 63) 'A']
        ++ base64Chunks fuel rest
  | _, [b0, b1] =>
      let n := b0 * 65536 + b1 * 256
      [base64Alphabet.getD (n >>> 18 &&& 63) 'A', base64Alphabet.getD (n >>> 12 &&& 63) 'A',
       base64Alphabet.getD (n >>> 6 &&& 63) 'A', '=']
  | _, [b0] =>
      let n := b0 * 65536
      [base64Alphabet.getD (n >>> 18 &&& 63) 'A', base64Alphabet.getD (n >>> 12 &&& 63) 'A',
       '=', '=']

/-- `base64::engine::general_purpose::STANDARD.encode`. -/
def base64Encode (bytes : List Nat) : String :=
  String.mk (base64Chunks bytes.length bytes)

/-- The WebSocket GUID appended to the request key. -/
def wsGuid : List Nat := Utf8Bytes.from_static "258EAFA5-E914-47DA-95CA-C5AB0DC85B11"

/-- `derive_accept_key`: base64 of the SHA-1 digest of the request key
followed by the GUID. -/
def derive_accept_key (req_key : List Nat) : String :=
  base64Encode (sha1 (req_key ++ wsGuid))

/-! ### Frame encode/decode through the codec (claim C4) -/

/-- Encoding an unmasked frame: the formatted header followed by the raw
payload.  This is `Frame::format_to_buf` for a frame without a mask (the
masking branch is skipped). -/
def encodeFrame (f : Frame) : List Nat :=
  f.header.format f.payload.length ++ f.payload

/-- Decoding: `FrameHeader::parse` from the start of the buffer, then take
the announced number of payload bytes. -/
def decodeFrame (bytes : List Nat) : Option Frame :=
  match FrameHeader.parse ⟨bytes, 0⟩ with
  | .ok (some (h, len)) c => some ⟨h, (bytes.drop c.pos).take len⟩
  | _ => none

/-! ## Theorems -/

/-- Values below 128 are fixed by masking with `0x7F`. -/
theorem and127_of_lt {n : Nat} (h : n < 128) : n &&& 127 = n := by
  have h7 : (127 : Nat) = 2 ^ 7 - 1 := rfl
  rw [h7, Nat.and_pow_two_sub_one_eq_mod]
  exact Nat.mod_eq_of_lt h

/-- Values below 128 have a clear `0x80` bit. -/
theorem and128_of_lt {n : Nat} (h : n < 128) : n &&& 128 = 0 := by
  apply Nat.eq_of_testBit_eq
  intro i
  rw [Nat.testBit_and, Nat.zero_testBit]
  have h128 : (128 : Nat) = 2 ^ 7 := rfl
  rw [h128, Nat.testBit_two_pow]
  by_cases hi : 7 = i
  · subst hi
    have hb : n.testBit 7 = false := Nat.testBit_lt_two_pow (show n < 2 ^ 7 by omega)
    simp [hb]
  · simp [hi]

/-- A length byte below 126 selects the inline 7-bit encoding. -/
theorem for_byte_of_lt {n : Nat} (h : n < 126) : Length.for_byte n = .U8 n := by
  unfold Length.for_byte
  rw [and127_of_lt (by omega)]
  split
  · omega
  · omega
  · rfl

/-- Symbolic evaluation of `FrameHeader::parse` on a two-byte unmasked
header with an inline payload length followed by arbitrary bytes. -/
theorem parse_u8_len (b0 n : Nat) (payload : List Nat) (hn : n < 126)
    (hres : (opCodeOfU8 (b0 &&& 15)).isReserved = false) :
    FrameHeader.parse ⟨b0 :: n :: payload, 0⟩ =
      .ok (some ({ fin := b0 &&& 128 != 0, rsv1 := b0 &&& 64 != 0,
                   rsv2 := b0 &&& 32 != 0, rsv3 := b0 &&& 16 != 0,
                   opcode := opCodeOfU8 (b0 &&& 15), mask := none }, n))
        ⟨b0 :: n :: payload, 2⟩ := by
  have hmasked : n &&& 128 = 0 := and128_of_lt (by omega)
  have hlb : n &&& 127 = n := and127_of_lt (by omega)
  unfold FrameHeader.parse FrameHeader.parse_internal
  simp [Cursor.readN, Cursor.remaining, hlb, hmasked, for_byte_of_lt hn,
    FrameHeader.parse_finish, Length.additional]
  rcases hop2 : opCodeOfU8 (b0 &&& 15) with d | c
  · cases d <;> simp_all [OpCode.isReserved]
  · cases c <;> simp_all [OpCode.isReserved]

/-- `FrameHeader::format` of an unmasked header with a payload below 126
bytes: the opcode/flags byte followed by the inline length byte. -/
theorem format_u8 (h : FrameHeader) (n : Nat) (hn : n < 126) (hm : h.mask = none) :
    h.format n =
      [u8OfOpCode h.opcode ||| (if h.fin then 128 else 0) ||| (if h.rsv1 then 64 else 0)
        ||| (if h.rsv2 then 32 else 0) ||| (if h.rsv3 then 16 else 0), n] := by
  unfold FrameHeader.format
  simp [hm, Length.for_len, hn, Length.len_byte]

/-- The flag and opcode bits of the first header byte are recovered exactly
when the opcode value fits in the low nibble. -/
theorem first_byte_facts (fin r1 r2 r3 : Bool) (code : Nat) (hc : code < 16) :
    ((code ||| (if fin then 128 else 0) ||| (if r1 then 64 else 0)
      ||| (if r2 then 32 else 0) ||| (if r3 then 16 else 0)) &&& 128 != 0) = fin ∧
    ((code ||| (if fin then 128 else 0) ||| (if r1 then 64 else 0)
      ||| (if r2 then 32 else 0) ||| (if r3 then 16 else 0)) &&& 64 != 0) = r1 ∧
    ((code ||| (if fin then 128 else 0) ||| (if r1 then 64 else 0)
      ||| (if r2 then 32 else 0) ||| (if r3 then 16 else 0)) &&& 32 != 0) = r2 ∧
    ((code ||| (if fin then 128 else 0) ||| (if r1 then 64 else 0)
      ||| (if r2 then 32 else 0) ||| (if r3 then 16 else 0)) &&& 16 != 0) = r3 ∧
    (code ||| (if fin then 128 else 0) ||| (if r1 then 64 else 0)
      ||| (if r2 then 32 else 0) ||| (if r3 then 16 else 0)) &&& 15 = code := by
  cases fin <;> cases r1 <;> cases r2 <;> cases r3 <;> interval_cases code <;> decide

/-- Claim C4.  Encoding any unmasked frame with `fin` set, an opcode in
{Text, Binary, Ping, Pong, Close} and at most 125 payload bytes — header
bytes then raw payload — and then decoding (`FrameHeader::parse` plus taking
the announced number of payload bytes) returns the original frame.  The
reserved bits may be any combination; they are encoded and recovered
faithfully as well. -/
theorem C4_codec_roundtrip (f : Frame)
    (hmask : f.header.mask = none) (hfin : f.header.fin = true)
    (hop : f.header.opcode = .Data .Text ∨ f.header.opcode = .Data .Binary ∨
      f.header.opcode = .Control .Ping ∨ f.header.opcode = .Control .Pong ∨
      f.header.opcode = .Control .Close)
    (hlen : f.payload.length ≤ 125) :
    decodeFrame (encodeFrame f) = some f := by
  obtain ⟨⟨fin, r1, r2, r3, op, mk⟩, payload⟩ := f
  simp only [Frame.header, FrameHeader.mask, FrameHeader.fin, FrameHeader.opcode,
    Frame.payload] at hmask hfin hop hlen
  subst hmask hfin
  have hn : payload.length < 126 := by omega
  have hc : u8OfOpCode op < 16 := by
    rcases hop with h | h | h | h | h <;> subst h <;> decide
  have hback : opCodeOfU8 (u8OfOpCode op) = op := by
    rcases hop with h | h | h | h | h <;> subst h <;> decide
  have hnres : op.isReserved = false := by
    rcases hop with h | h | h | h | h <;> subst h <;> decide
  obtain ⟨hA, hB, hC, hD, hE⟩ := first_byte_facts true r1 r2 r3 (u8OfOpCode op) hc
  have hres : (opCodeOfU8 ((u8OfOpCode op ||| (if (true : Bool) then 128 else 0)
      ||| (if r1 then 64 else 0) ||| (if r2 then 32 else 0)
      ||| (if r3 then 16 else 0)) &&& 15)).isReserved = false := by
    rw [hE, hback]; exact hnres
  simp only [eq_self_iff_true, if_true] at hA hB hC hD hE hres
  unfold encodeFrame decodeFrame
  rw [format_u8 _ _ hn rfl]
  dsimp only
  simp only [eq_self_iff_true, if_true]
  rw [List.cons_append, List.cons_append, List.nil_append]
  rw [parse_u8_len _ _ _ hn hres]
  simp only [hA, hB, hC, hD, hE, hback, List.drop_succ_cons, List.drop_zero,
    List.take_length]

/-- Witness for C4 at a concrete frame: a fin Text frame with a two-byte
payload round-trips. -/
theorem C4_witness :
    decodeFrame (encodeFrame ⟨{ fin := true, rsv1 := false, rsv2 := false, rsv3 := false, opcode := .Data .Text, mask := none }, [104, 105]⟩) =
      some ⟨{ fin := true, rsv1 := false, rsv2 := false, rsv3 := false, opcode := .Data .Text, mask := none }, [104, 105]⟩ :=
  C4_codec_roundtrip _ rfl rfl (Or.inl rfl) (by decide)

/-- Claim C1.  The three payload-length encodings are chosen correctly at
the boundaries (125 inline, 126 as 16-bit, 65536 as 64-bit), and parsing the
formatted bytes round-trips the payload length for 125 and 126 — but for
65536 the parser PANICS: `parse_internal` asserts
`particular_len < size_of::<u64>()`, which is `8 < 8` for the 64-bit
encoding, so every frame using the 64-bit length extension makes the codec
abort instead of returning the header.  This contradicts the formatter it is
paired with and the assert's own intent (an 8-byte length does not exceed
the size of a `u64`). -/
theorem C1_length_boundaries_roundtrip_and_u64_panic :
    Length.for_len 125 = .U8 125 ∧ Length.for_len 126 = .U16 ∧
    Length.for_len 65536 = .U64 ∧
    (let h : FrameHeader := { fin := true, rsv1 := false, rsv2 := false, rsv3 := false, opcode := .Data .Text, mask := none }
     h.format 125 = [0x81, 125] ∧
     FrameHeader.parse ⟨h.format 125, 0⟩ = .ok (some (h, 125)) ⟨h.format 125, 2⟩ ∧
     h.format 126 = [0x81, 126, 0, 126] ∧
     FrameHeader.parse ⟨h.format 126, 0⟩ = .ok (some (h, 126)) ⟨h.format 126, 4⟩ ∧
     h.format 65536 = [0x81, 127, 0, 0, 0, 0, 0, 1, 0, 0] ∧
     FrameHeader.parse ⟨h.format 65536, 0⟩ = .panicked) := by
  decide

/-- Claim C2.  Receiving a Close frame in the `Active` state does move the
session to `ClosedByPeer`, replaces a disallowed close code by
`Protocol` (1002) and queues an echo — but the replacement reason string in
the source is the misspelled `"Protocol violatoin"`, not the
`"Protocol violation"` stated by the spec.  An allowed code is surfaced
unchanged with an identical echo queued. -/
theorem C2_try_close_active_reason_typo :
    try_close .Active none (some ⟨.Status, []⟩) =
      some ⟨some (some ⟨.Protocol, Utf8Bytes.from_static "Protocol violatoin"⟩), .ClosedByPeer,
        some (Frame.new_close (some ⟨.Protocol, Utf8Bytes.from_static "Protocol violatoin"⟩))⟩ ∧
    Utf8Bytes.from_static "Protocol violatoin" ≠ Utf8Bytes.from_static "Protocol violation" ∧
    CloseCode.allowed .Status = false ∧
    try_close .Active none (some ⟨.Normal, Utf8Bytes.from_static "bye"⟩) =
      some ⟨some (some ⟨.Normal, Utf8Bytes.from_static "bye"⟩), .ClosedByPeer,
        some (Frame.new_close (some ⟨.Normal, Utf8Bytes.from_static "bye"⟩))⟩ := by
  decide

/-- Claim C3.  The default configuration matches the spec on every field
except `max_frame_size`: the source sets it to `Some(64 MiB)`
(`64 << 20`), while the claim — and the field's own documentation comment in
`config.rs` — say 16 MiB. -/
theorem C3_default_config_values :
    WebSocketConfig.default.read_buffer_size = 128 * 1024 ∧
    WebSocketConfig.default.write_buffer_size = 128 * 1024 ∧
    WebSocketConfig.default.max_write_buffer_size = 2 ^ 64 - 1 ∧
    WebSocketConfig.default.max_message_size = some (64 * 1024 * 1024) ∧
    WebSocketConfig.default.accept_unmasked_frames = false ∧
    WebSocketConfig.default.max_frame_size = some (64 * 1024 * 1024) ∧
    WebSocketConfig.default.max_frame_size ≠ some (16 * 1024 * 1024) := by
  decide

/-- Claim C6.  On short reads `FrameHeader::parse` returns `None` with the
cursor position restored to its entry value, and on a complete header it
returns `Some` with the cursor advanced past the header — EXCEPT when the
length byte announces the 64-bit extension (`127`): then the
`assert!(particular_len < SIZE)` slip makes the call panic, even though the
bytes `[0x82, 0x7F]` are merely a short read that should return `None`.
The conjuncts exercise: short read after 1 byte, short read inside the
16-bit length extension, short read inside the mask key (each restoring a
nonzero entry position as well), a complete unmasked and a complete masked
header (advancing by exactly the header length), and the panicking short
read. -/
theorem C6_parse_cursor_discipline_and_panic :
    FrameHeader.parse ⟨[0x81], 0⟩ = .ok none ⟨[0x81], 0⟩ ∧
    FrameHeader.parse ⟨[0x82, 126, 0], 0⟩ = .ok none ⟨[0x82, 126, 0], 0⟩ ∧
    FrameHeader.parse ⟨[0x89, 0x85, 1, 2], 0⟩ = .ok none ⟨[0x89, 0x85, 1, 2], 0⟩ ∧
    FrameHeader.parse ⟨[9, 9, 0x82, 126, 0], 2⟩ = .ok none ⟨[9, 9, 0x82, 126, 0], 2⟩ ∧
    FrameHeader.parse ⟨[9, 9, 0x81, 5, 1], 2⟩ =
      .ok (some ({ fin := true, rsv1 := false, rsv2 := false, rsv3 := false, opcode := .Data .Text, mask := none }, 5)) ⟨[9, 9, 0x81, 5, 1], 4⟩ ∧
    FrameHeader.parse ⟨[0x89, 0x85, 1, 2, 3, 4], 0⟩ =
      .ok (some ({ fin := true, rsv1 := false, rsv2 := false, rsv3 := false, opcode := .Control .Ping, mask := some ⟨1, 2, 3, 4⟩ }, 5)) ⟨[0x89, 0x85, 1, 2, 3, 4], 6⟩ ∧
    FrameHeader.parse ⟨[0x82, 0x7F], 0⟩ = .panicked := by
  decide

/-- Claim C7.  The auxiliary frame slot accepts a new frame exactly when it
is empty or holds a Pong frame; a slot holding anything else — in
particular a Close frame — is left unchanged by `set_additional`. -/
theorem C7_additional_send_only_empty_or_pong :
    (∀ f : Frame, set_additional none f = some f) ∧
    (∀ g f : Frame, g.header.opcode = .Control .Pong → set_additional (some g) f = some f) ∧
    (∀ g f : Frame, g.header.opcode ≠ .Control .Pong → set_additional (some g) f = some g) ∧
    (∀ g f : Frame, g.header.opcode = .Control .Close → set_additional (some g) f = some g) := by
  refine ⟨fun f => rfl, fun g f h => ?_, fun g f h => ?_, fun g f h => ?_⟩
  · simp [set_additional, h]
  · simp [set_additional, h]
  · simp [set_additional, h]

/-- Witness for C7 at concrete frames: an empty slot accepts a pong, and a
queued Close frame is not displaced by a later pong. -/
theorem C7_witness :
    set_additional none (Frame.new_pong [1]) = some (Frame.new_pong [1]) ∧
    set_additional (some (Frame.new_close none)) (Frame.new_pong [1]) =
      some (Frame.new_close none) := by
  exact ⟨C7_additional_send_only_empty_or_pong.1 (Frame.new_pong [1]),
    C7_additional_send_only_empty_or_pong.2.2.2 (Frame.new_close none) (Frame.new_pong [1]) rfl⟩

/-- Claim C8.  The attack check fails with `AttackAttempt` exactly when,
after accounting the read, the byte total exceeds 65536, or the read count
exceeds 512, or the read count exceeds 64 with fewer than 128 bytes per
read on average; and 80 reads of 100 bytes each fail. -/
theorem C8_attack_check_thresholds :
    (∀ (a : AttackCheck) (size : Nat),
      a.check_incoming_packet size = .error .AttackAttempt ↔
        (a.bytes + size > 65536 ∨ a.packets + 1 > 512 ∨
          (a.packets + 1 > 64 ∧ (a.packets + 1) * 128 > a.bytes + size))) ∧
    AttackCheck.run (List.replicate 80 100) = .error .AttackAttempt := by
  constructor
  · intro a size
    unfold AttackCheck.check_incoming_packet
    dsimp only
    split
    · exact iff_of_true rfl (by assumption)
    · exact iff_of_false (by simp) (by assumption)
  · rfl

/-- Claim C9.  `derive_accept_key` is base64 (RFC 4648 standard alphabet,
padded) of SHA-1 of the key concatenated with the RFC 6455 GUID, and maps
the RFC's sample nonce to the RFC's sample accept value. -/
theorem C9_derive_accept_key_rfc_vector :
    (∀ key : List Nat, derive_accept_key key = base64Encode (sha1 (key ++ wsGuid))) ∧
    derive_accept_key (Utf8Bytes.from_static "dGhlIHNhbXBsZSBub25jZQ==") =
      "s3pPLMBiTxaQ9kYGzzhZRbK+xOo=" := by
  exact ⟨fun key => rfl, by decide⟩

/-- Claim C10.  Classifying a 16-bit value into a `CloseCode` band and
mapping back to `u16` returns the original value: every constructor either
stores its value or maps back to the literal it matched. -/
theorem C10_close_code_u16_roundtrip (n : Nat) (h : n < 65536) :
    u16OfCloseCode (closeCodeOfU16 n) = n := by
  simp only [closeCodeOfU16]
  by_cases h1 : n = 0x3e8
  · simp only [if_pos h1, u16OfCloseCode]; omega
  simp only [if_neg h1]
  by_cases h2 : n = 0x3e9
  · simp only [if_pos h2, u16OfCloseCode]; omega
  simp only [if_neg h2]
  by_cases h3 : n = 0x3EA
  · simp only [if_pos h3, u16OfCloseCode]; omega
  simp only [if_neg h3]
  by_cases h4 : n = 0x3EB
  · simp only [if_pos h4, u16OfCloseCode]; omega
  simp only [if_neg h4]
  by_cases h5 : n = 0x3ED
  · simp only [if_pos h5, u16OfCloseCode]; omega
  simp only [if_neg h5]
  by_cases h6 : n = 0x3EE
  · simp only [if_pos h6, u16OfCloseCode]; omega
  simp only [if_neg h6]
  by_cases h7 : n = 0x3EF
  · simp only [if_pos h7, u16OfCloseCode]; omega
  simp only [if_neg h7]
  by_cases h8 : n = 0x3F0
  · simp only [if_pos h8, u16OfCloseCode]; omega
  simp only [if_neg h8]
  by_cases h9 : n = 0x3F1
  · simp only [if_pos h9, u16OfCloseCode]; omega
  simp only [if_neg h9]
  by_cases h10 : n = 0x3F2
  · simp only [if_pos h10, u16OfCloseCode]; omega
  simp only [if_neg h10]
  by_cases h11 : n = 0x3F3
  · simp only [if_pos h11, u16OfCloseCode]; omega
  simp only [if_neg h11]
  by_cases h12 : n = 0x3F4
  · simp only [if_pos h12, u16OfCloseCode]; omega
  simp only [if_neg h12]
  by_cases h13 : n = 0x3F5
  · simp only [if_pos h13, u16OfCloseCode]; omega
  simp only [if_neg h13]
  by_cases h14 : n = 0x3F7
  · simp only [if_pos h14, u16OfCloseCode]; omega
  simp only [if_neg h14]
  by_cases h15 : 0x1 ≤ n ∧ n ≤ 0x3E7
  · simp only [if_pos h15, u16OfCloseCode]
  simp only [if_neg h15]
  by_cases h16 : 0x3F8 ≤ n ∧ n ≤ 0xBB7
  · simp only [if_pos h16, u16OfCloseCode]
  simp only [if_neg h16]
  by_cases h17 : 0xBB8 ≤ n ∧ n ≤ 0xF9F
  · simp only [if_pos h17, u16OfCloseCode]
  simp only [if_neg h17]
  by_cases h18 : 0xFA0 ≤ n ∧ n ≤ 0x1387
  · simp only [if_pos h18, u16OfCloseCode]
  simp only [if_neg h18, u16OfCloseCode]

/-- Witness for C10 at a concrete value (3000, an IANA-band code). -/
theorem C10_witness :
    3000 < 65536 ∧ u16OfCloseCode (closeCodeOfU16 3000) = 3000 :=
  ⟨by decide, C10_close_code_u16_roundtrip 3000 (by decide)⟩


/-! ### Lemmas for the mask-equivalence claim (C5) -/

theorem and3_eq_mod (n : Nat) : n &&& 3 = n % 4 := by
  have h3 : (3 : Nat) = 2 ^ 2 - 1 := rfl
  have h4 : (4 : Nat) = 2 ^ 2 := rfl
  rw [h3, h4, Nat.and_pow_two_sub_one_eq_mod]

theorem xor_div_pow (x y k : Nat) : (x ^^^ y) / 2 ^ k = x / 2 ^ k ^^^ y / 2 ^ k := by
  induction k with
  | zero => simp
  | succ k ih =>
      have h : ∀ z : Nat, z / 2 ^ (k + 1) = z / 2 ^ k / 2 := by
        intro z
        rw [Nat.pow_succ, Nat.div_div_eq_div_mul]
      rw [h, h, h, ih, Nat.xor_div_two]

theorem xor_mod_pow (x y k : Nat) : (x ^^^ y) % 2 ^ k = x % 2 ^ k ^^^ y % 2 ^ k := by
  rw [← Nat.and_pow_two_sub_one_eq_mod, ← Nat.and_pow_two_sub_one_eq_mod,
    ← Nat.and_pow_two_sub_one_eq_mod, Nat.and_xor_distrib_right]

/-- The little-endian bytes of a XOR of words are the XORs of the bytes. -/
theorem leBytesOfU32_xor (x y : Nat) :
    leBytesOfU32 (x ^^^ y) =
      ⟨x % 256 ^^^ y % 256, x / 256 % 256 ^^^ y / 256 % 256,
       x / 65536 % 256 ^^^ y / 65536 % 256,
       x / 16777216 % 256 ^^^ y / 16777216 % 256⟩ := by
  have e256 : (256 : Nat) = 2 ^ 8 := rfl
  have e65536 : (65536 : Nat) = 2 ^ 16 := rfl
  have e16777216 : (16777216 : Nat) = 2 ^ 24 := rfl
  unfold leBytesOfU32
  rw [e256, e65536, e16777216]
  rw [xor_mod_pow, xor_div_pow, xor_mod_pow, xor_div_pow, xor_mod_pow,
    xor_div_pow, xor_mod_pow]

/-- Byte decomposition of a word assembled from bytes. -/
theorem leBytesOfU32_ofLeBytes (m : MaskKey) (hm : m.Wf) :
    leBytesOfU32 (u32OfLeBytes m) = m := by
  obtain ⟨a, b, c, d⟩ := m
  obtain ⟨ha, hb, hc, hd⟩ := hm
  simp only [MaskKey.Wf] at ha hb hc hd
  unfold leBytesOfU32 u32OfLeBytes
  dsimp only
  simp only [MaskKey.mk.injEq]
  refine ⟨?_, ?_, ?_, ?_⟩ <;> omega


theorem leBytes_rotate8 (a b c d : Nat) (ha : a < 256) (hb : b < 256)
    (hc : c < 256) (hd : d < 256) :
    leBytesOfU32 (rotateRight32 (u32OfLeBytes ⟨a, b, c, d⟩) 8) = ⟨b, c, d, a⟩ := by
  unfold u32OfLeBytes rotateRight32
  dsimp only
  norm_num
  rw [Nat.shiftRight_eq_div_pow, Nat.shiftLeft_eq]
  have hlt : (a + 256 * b + 65536 * c + 16777216 * d) / 2 ^ 8 < 2 ^ 24 := by omega
  rw [Nat.lor_comm, Nat.mul_comm, ← Nat.mul_add_lt_is_or hlt]
  simp only [show (2 : Nat) ^ 8 = 256 from rfl, show (2 : Nat) ^ 24 = 16777216 from rfl,
    show (2 : Nat) ^ 32 = 4294967296 from rfl]
  have hq : 16777216 * (a + 256 * b + 65536 * c + 16777216 * d)
        + (a + 256 * b + 65536 * c + 16777216 * d) / 256 =
      4294967296 * (b + 256 * c + 65536 * d) + (16777216 * a + b + 256 * c + 65536 * d) := by
    omega
  rw [hq, Nat.mul_add_mod, Nat.mod_eq_of_lt (by omega)]
  unfold leBytesOfU32
  simp only [MaskKey.mk.injEq]
  refine ⟨?_, ?_, ?_, ?_⟩ <;> omega


theorem leBytes_rotate16 (a b c d : Nat) (ha : a < 256) (hb : b < 256)
    (hc : c < 256) (hd : d < 256) :
    leBytesOfU32 (rotateRight32 (u32OfLeBytes ⟨a, b, c, d⟩) 16) = ⟨c, d, a, b⟩ := by
  unfold u32OfLeBytes rotateRight32
  dsimp only
  norm_num
  rw [Nat.shiftRight_eq_div_pow, Nat.shiftLeft_eq]
  have hlt : (a + 256 * b + 65536 * c + 16777216 * d) / 2 ^ 16 < 2 ^ 16 := by omega
  rw [Nat.lor_comm, Nat.mul_comm, ← Nat.mul_add_lt_is_or hlt]
  simp only [show (2 : Nat) ^ 16 = 65536 from rfl,
    show (2 : Nat) ^ 32 = 4294967296 from rfl]
  have hq : 65536 * (a + 256 * b + 65536 * c + 16777216 * d)
        + (a + 256 * b + 65536 * c + 16777216 * d) / 65536 =
      4294967296 * (c + 256 * d) + (65536 * a + 16777216 * b + c + 256 * d) := by
    omega
  rw [hq, Nat.mul_add_mod, Nat.mod_eq_of_lt (by omega)]
  unfold leBytesOfU32
  simp only [MaskKey.mk.injEq]
  refine ⟨?_, ?_, ?_, ?_⟩ <;> omega

theorem leBytes_rotate24 (a b c d : Nat) (ha : a < 256) (hb : b < 256)
    (hc : c < 256) (hd : d < 256) :
    leBytesOfU32 (rotateRight32 (u32OfLeBytes ⟨a, b, c, d⟩) 24) = ⟨d, a, b, c⟩ := by
  unfold u32OfLeBytes rotateRight32
  dsimp only
  norm_num
  rw [Nat.shiftRight_eq_div_pow, Nat.shiftLeft_eq]
  have hlt : (a + 256 * b + 65536 * c + 16777216 * d) / 2 ^ 24 < 2 ^ 8 := by omega
  rw [Nat.lor_comm, Nat.mul_comm, ← Nat.mul_add_lt_is_or hlt]
  simp only [show (2 : Nat) ^ 8 = 256 from rfl, show (2 : Nat) ^ 24 = 16777216 from rfl,
    show (2 : Nat) ^ 32 = 4294967296 from rfl]
  have hq : 256 * (a + 256 * b + 65536 * c + 16777216 * d)
        + (a + 256 * b + 65536 * c + 16777216 * d) / 16777216 =
      4294967296 * d + (256 * a + 65536 * b + 16777216 * c + d) := by
    omega
  rw [hq, Nat.mul_add_mod, Nat.mod_eq_of_lt (by omega)]
  unfold leBytesOfU32
  simp only [MaskKey.mk.injEq]
  refine ⟨?_, ?_, ?_, ?_⟩ <;> omega


theorem MaskKey.get_lt (m : MaskKey) (hm : m.Wf) (j : Nat) : m.get j < 256 := by
  obtain ⟨b0, b1, b2, b3⟩ := m
  obtain ⟨h0, h1, h2, h3⟩ := hm
  rcases j with _ | _ | _ | j <;> simpa [MaskKey.get]

theorem xor_xor_self (b g : Nat) : b ^^^ g ^^^ g = b := by
  rw [Nat.xor_assoc, Nat.xor_self, Nat.xor_zero]

theorem applyMaskFrom_append (m : MaskKey) (i : Nat) (xs ys : List Nat) :
    applyMaskFrom m i (xs ++ ys) =
      applyMaskFrom m i xs ++ applyMaskFrom m (i + xs.length) ys := by
  induction xs generalizing i with
  | nil => simp [applyMaskFrom]
  | cons x xs ih =>
      simp [applyMaskFrom, ih, Nat.add_assoc, Nat.add_comm 1 xs.length]

theorem applyMaskFrom_length (m : MaskKey) (i : Nat) (l : List Nat) :
    (applyMaskFrom m i l).length = l.length := by
  induction l generalizing i with
  | nil => rfl
  | cons x xs ih => simp [applyMaskFrom, ih]

theorem applyMaskFrom_lt (m : MaskKey) (hm : m.Wf) (i : Nat) (l : List Nat)
    (hl : ∀ x ∈ l, x < 256) : ∀ x ∈ applyMaskFrom m i l, x < 256 := by
  induction l generalizing i with
  | nil => simp [applyMaskFrom]
  | cons x xs ih =>
      intro y hy
      rw [applyMaskFrom] at hy
      rcases List.mem_cons.mp hy with hy | hy
      · subst hy
        have hx : x < 2 ^ 8 := hl x (List.mem_cons_self _ _)
        have hg : m.get (i &&& 3) < 2 ^ 8 := MaskKey.get_lt m hm _
        exact Nat.xor_lt_two_pow hx hg
      · exact ih (i + 1) (fun z hz => hl z (List.mem_cons_of_mem _ hz)) y hy

theorem applyMaskFrom_involution (m : MaskKey) (i : Nat) (l : List Nat) :
    applyMaskFrom m i (applyMaskFrom m i l) = l := by
  induction l generalizing i with
  | nil => rfl
  | cons x xs ih => simp [applyMaskFrom, xor_xor_self, ih]

theorem applyMaskFrom_congr (m mq : MaskKey) (l : List Nat) (i j : Nat)
    (hk : ∀ k, mq.get ((i + k) &&& 3) = m.get ((j + k) &&& 3)) :
    applyMaskFrom mq i l = applyMaskFrom m j l := by
  induction l generalizing i j with
  | nil => rfl
  | cons x xs ih =>
      have h0 := hk 0
      simp only [Nat.add_zero] at h0
      have hk2 : ∀ k, mq.get ((i + 1 + k) &&& 3) = m.get ((j + 1 + k) &&& 3) := by
        intro k
        have h := hk (k + 1)
        have e1 : i + (k + 1) = i + 1 + k := by omega
        have e2 : j + (k + 1) = j + 1 + k := by omega
        rw [e1, e2] at h
        exact h
      unfold applyMaskFrom
      rw [h0, ih _ _ hk2]


theorem xorWords_cons (M a b c d : Nat) (ha : a < 256) (hb : b < 256)
    (hc : c < 256) (hd : d < 256) (rest : List Nat) :
    xorWords M (a :: b :: c :: d :: rest) =
      (a ^^^ M % 256) :: (b ^^^ M / 256 % 256) :: (c ^^^ M / 65536 % 256)
        :: (d ^^^ M / 16777216 % 256) :: xorWords M rest := by
  have hu : u32OfLeBytes ⟨a, b, c, d⟩ = a + 256 * b + 65536 * c + 16777216 * d := rfl
  have h0 : (a + 256 * b + 65536 * c + 16777216 * d) % 256 = a := by omega
  have h1 : (a + 256 * b + 65536 * c + 16777216 * d) / 256 % 256 = b := by omega
  have h2 : (a + 256 * b + 65536 * c + 16777216 * d) / 65536 % 256 = c := by omega
  have h3 : (a + 256 * b + 65536 * c + 16777216 * d) / 16777216 % 256 = d := by omega
  show (leBytesOfU32 (u32OfLeBytes ⟨a, b, c, d⟩ ^^^ M)).bytes ++ xorWords M rest = _
  rw [leBytesOfU32_xor, hu, h0, h1, h2, h3]
  rfl

theorem applyMaskFrom_four (m : MaskKey) (i : Nat) (a b c d : Nat) (rest : List Nat) :
    applyMaskFrom m i (a :: b :: c :: d :: rest) =
      (a ^^^ m.get (i &&& 3)) :: (b ^^^ m.get ((i + 1) &&& 3))
        :: (c ^^^ m.get ((i + 2) &&& 3)) :: (d ^^^ m.get ((i + 3) &&& 3))
        :: applyMaskFrom m (i + 4) rest := by
  simp only [applyMaskFrom]

theorem xorWords_eq (M : Nat) (w : Nat) (chunk : List Nat)
    (hlen : chunk.length = 4 * w) (hb : ∀ x ∈ chunk, x < 256) :
    xorWords M chunk = applyMaskFrom (leBytesOfU32 M) 0 chunk := by
  induction w generalizing chunk with
  | zero =>
      have : chunk = [] := List.eq_nil_of_length_eq_zero (by omega)
      subst this
      rfl
  | succ w ih =>
      match chunk, hlen with
      | a :: b :: c :: d :: rest, hlen =>
        have ha : a < 256 := hb a (by simp)
        have hbb : b < 256 := hb b (by simp)
        have hcc : c < 256 := hb c (by simp)
        have hdd : d < 256 := hb d (by simp)
        have hrest : ∀ x ∈ rest, x < 256 := fun x hx => hb x (by simp [hx])
        have hrl : rest.length = 4 * w := by
          simp only [List.length_cons] at hlen
          omega
        have e4 : ∀ k, (4 + k) &&& 3 = (0 + k) &&& 3 := by
          intro k
          rw [and3_eq_mod, and3_eq_mod]
          omega
        have hc4 : applyMaskFrom (leBytesOfU32 M) 4 rest =
            applyMaskFrom (leBytesOfU32 M) 0 rest :=
          applyMaskFrom_congr _ _ rest 4 0 (fun k => by rw [e4 k])
        rw [xorWords_cons M a b c d ha hbb hcc hdd rest, ih rest hrl hrest,
          applyMaskFrom_four, Nat.zero_add, hc4]
        rfl



theorem maskRot_get (mask : MaskKey) (hm : mask.Wf) (p : Nat) (k : Nat) :
    (leBytesOfU32 (if p % 4 > 0 then rotateRight32 (u32OfLeBytes mask) (8 * (p % 4))
        else u32OfLeBytes mask)).get (k &&& 3) =
      mask.get ((p + k) &&& 3) := by
  obtain ⟨a, b, c, d⟩ := mask
  obtain ⟨ha, hb, hc, hd⟩ := hm
  have hp4 : p % 4 < 4 := Nat.mod_lt _ (by norm_num)
  have hk4 : k % 4 < 4 := Nat.mod_lt _ (by norm_num)
  rw [and3_eq_mod, and3_eq_mod]
  set hv := p % 4 with hhv
  set kv := k % 4 with hkv
  have hpk : (p + k) % 4 = (hv + kv) % 4 := by omega
  rw [hpk]
  interval_cases hv <;> interval_cases kv <;>
    simp [leBytes_rotate8 a b c d ha hb hc hd, leBytes_rotate16 a b c d ha hb hc hd,
      leBytes_rotate24 a b c d ha hb hc hd,
      leBytesOfU32_ofLeBytes ⟨a, b, c, d⟩ ⟨ha, hb, hc, hd⟩, MaskKey.get]


theorem apply_mask_eq_default (buf : List Nat) (mask : MaskKey) (p w : Nat)
    (hbuf : ∀ x ∈ buf, x < 256) (hm : mask.Wf) (hpw : p + 4 * w ≤ buf.length) :
    apply_mask p w buf mask = apply_mask_default buf mask := by
  have hplen : (buf.take p).length = p := by rw [List.length_take]; omega
  have hmidlen : ((buf.drop p).take (4 * w)).length = 4 * w := by
    rw [List.length_take, List.length_drop]; omega
  have hmidb : ∀ x ∈ (buf.drop p).take (4 * w), x < 256 := fun x hx =>
    hbuf x (List.drop_subset _ _ (List.take_subset _ _ hx))
  have hsplit : applyMaskFrom mask 0 buf =
      (applyMaskFrom mask 0 (buf.take p)
        ++ applyMaskFrom mask p ((buf.drop p).take (4 * w)))
        ++ applyMaskFrom mask (p + 4 * w) ((buf.drop p).drop (4 * w)) := by
    conv_lhs => rw [← List.take_append_drop p buf,
      ← List.take_append_drop (4 * w) (buf.drop p)]
    rw [applyMaskFrom_append, applyMaskFrom_append, hplen, hmidlen, Nat.zero_add,
      ← List.append_assoc]
  simp only [apply_mask, apply_mask_default]
  rw [hplen, and3_eq_mod, hsplit]
  congr 1
  congr 1
  · rw [xorWords_eq _ w _ hmidlen hmidb]
    refine applyMaskFrom_congr _ _ _ 0 p (fun k => ?_)
    rw [Nat.zero_add]
    exact maskRot_get mask hm p k
  · refine applyMaskFrom_congr _ _ _ 0 (p + 4 * w) (fun k => ?_)
    rw [Nat.zero_add]
    have h1 : k &&& 3 = (4 * w + k) &&& 3 := by
      rw [and3_eq_mod, and3_eq_mod]; omega
    have h2 : p + (4 * w + k) = p + 4 * w + k := by omega
    rw [h1]
    rw [show (leBytesOfU32 (if p % 4 > 0 then rotateRight32 (u32OfLeBytes mask) (8 * (p % 4))
        else u32OfLeBytes mask)).get ((4 * w + k) &&& 3) =
      mask.get ((p + (4 * w + k)) &&& 3) from maskRot_get mask hm p (4 * w + k), h2]


/-- Claim C5.  For every byte buffer, 4-byte key and any prefix/word split
`align_to_mut::<u32>` may produce (`p + 4 * w ≤ buf.length`), the optimised
word-aligned `apply_mask` computes exactly the naive reference
`apply_mask_default` (XOR byte `i` with key byte `i mod 4`); and hence a
second application with the same key (under any valid split) restores the
original buffer. -/
theorem C5_apply_mask_equals_naive (buf : List Nat) (mask : MaskKey) (p w p2 w2 : Nat)
    (hbuf : ∀ x ∈ buf, x < 256) (hm : mask.Wf)
    (hpw : p + 4 * w ≤ buf.length) (hpw2 : p2 + 4 * w2 ≤ buf.length) :
    apply_mask p w buf mask = apply_mask_default buf mask ∧
    apply_mask p2 w2 (apply_mask p w buf mask) mask = buf := by
  have h1 := apply_mask_eq_default buf mask p w hbuf hm hpw
  refine ⟨h1, ?_⟩
  have hlen : (apply_mask p w buf mask).length = buf.length := by
    rw [h1]
    unfold apply_mask_default
    exact applyMaskFrom_length mask 0 buf
  have hbytes : ∀ x ∈ apply_mask p w buf mask, x < 256 := by
    rw [h1]
    unfold apply_mask_default
    exact applyMaskFrom_lt mask hm 0 buf hbuf
  have h2 := apply_mask_eq_default (apply_mask p w buf mask) mask p2 w2 hbytes hm
    (by rw [hlen]; exact hpw2)
  rw [h2, h1]
  unfold apply_mask_default
  exact applyMaskFrom_involution mask 0 buf

/-- Witness for C5: a 7-byte buffer with split prefix 2 / one word, and the
involution with split prefix 3 / one word. -/
theorem C5_witness :
    apply_mask 2 1 [0, 1, 2, 3, 4, 5, 6] ⟨7, 11, 13, 17⟩ =
      apply_mask_default [0, 1, 2, 3, 4, 5, 6] ⟨7, 11, 13, 17⟩ ∧
    apply_mask 3 1 (apply_mask 2 1 [0, 1, 2, 3, 4, 5, 6] ⟨7, 11, 13, 17⟩) ⟨7, 11, 13, 17⟩ =
      [0, 1, 2, 3, 4, 5, 6] :=
  C5_apply_mask_equals_naive [0, 1, 2, 3, 4, 5, 6] ⟨7, 11, 13, 17⟩ 2 1 3 1
    (by decide) (by decide) (by decide) (by decide)



end Blitz
